import Mathlib

set_option maxHeartbeats 1000000

/-! Verification of the pcopy network onboarding layer (join orchestrator,
`cmd` package) and the raw-TCP-to-HTTP bridge (`server/tcp_forwarder.go`).
Go code is shallowly embedded: byte/string data becomes `List Char` /
`String`, channel arrival order becomes an explicit list, and external
collaborators (crypto codec, network client) become function parameters. -/

namespace Pcopy

/-- Server metadata returned by one discovery query, mirroring `server.Info`
as used by `execJoin`: the server address, an optional salt (present iff the
server is password protected) and an optional self-signed certificate. -/
structure Info where
  serverAddr : String
  salt : Option (List Nat)
  cert : Option String
  deriving Repr, DecidableEq

/-- Mirrors the Go struct `serverInfoResult { addr string; info *server.Info;
err error }` delivered on the shared result channel; `none` models a nil
pointer. -/
structure ServerInfoResult where
  addr : String
  info : Option Info
  err : Option String
  deriving Repr, DecidableEq

/-- The consume loop of `readServerInfo` (lines 157-167): results are taken
from the channel in arrival order; on the first result with `err == nil` the
loop stores its `info` and breaks, otherwise the result is appended to
`errs`.  Returns the final `info`, the collected `errs`, and how many
results were consumed from the channel. -/
def consumeResults : List ServerInfoResult → Option Info × List ServerInfoResult × Nat
  | [] => (none, [], 0)
  | r :: rest =>
    if r.err = none then (r.info, [], 1)
    else
      let t := consumeResults rest
      (t.1, r :: t.2.1, t.2.2 + 1)

/-- The all-failure message formatting of `readServerInfo` (lines 170-180):
a single `Cannot connect to addr: err` line when exactly one candidate was
tried (`len(errs) == 1`), otherwise a header plus one `- addr: err` bullet
per failed candidate, joined with newlines. -/
def formatErrs (errs : List ServerInfoResult) : String :=
  match errs with
  | [e] => "Cannot connect to " ++ e.addr ++ ": " ++ e.err.getD ""
  | _ =>
    "Cannot connect to any of the servers we tried:\n" ++
      String.intercalate "\n"
        (errs.map fun e => "- " ++ e.addr ++ ": " ++ e.err.getD "")

/-- Function `readServerInfo` over the arrival order of the per-candidate
results on the shared channel: consume until first success or exhaustion;
on no success wrap the aggregate message in the `failed.` error. -/
def readServerInfo (arrival : List ServerInfoResult) : Except String Info :=
  let t := consumeResults arrival
  match t.1 with
  | some i => Except.ok i
  | none => Except.error ("failed.\n" ++ formatErrs t.2.1)

theorem consumeResults_stop (pre post : List ServerInfoResult) (s : ServerInfoResult)
    (hpre : ∀ r ∈ pre, r.err ≠ none) (hs : s.err = none) :
    consumeResults (pre ++ s :: post) = (s.info, pre, pre.length + 1) := by
  induction pre with
  | nil => simp [consumeResults, hs]
  | cons r rest ih =>
    have hr : r.err ≠ none := hpre r (List.mem_cons_self r rest)
    have hrest : ∀ x ∈ rest, x.err ≠ none := fun x hx => hpre x (List.mem_cons_of_mem r hx)
    simp [consumeResults, hr, ih hrest]

theorem consumeResults_all_fail (arrival : List ServerInfoResult)
    (h : ∀ r ∈ arrival, r.err ≠ none) :
    consumeResults arrival = (none, arrival, arrival.length) := by
  induction arrival with
  | nil => rfl
  | cons r rest ih =>
    have hr : r.err ≠ none := h r (List.mem_cons_self r rest)
    have hrest : ∀ x ∈ rest, x.err ≠ none := fun x hx => h x (List.mem_cons_of_mem r hx)
    simp [consumeResults, hr, ih hrest]

/-- C1: if the results arriving on the channel are some failures followed by
a success carrying `info = some i`, `readServerInfo` returns exactly that
first success's `Info`, consumes exactly the results up to and including it,
and the content of everything after the first success has no effect on the
returned value. -/
theorem readServerInfo_first_success (pre : List ServerInfoResult)
    (s : ServerInfoResult) (i : Info)
    (hpre : ∀ r ∈ pre, r.err ≠ none) (hs : s.err = none) (hi : s.info = some i) :
    ∀ post : List ServerInfoResult,
      readServerInfo (pre ++ s :: post) = Except.ok i ∧
        (consumeResults (pre ++ s :: post)).2.2 = pre.length + 1 := by
  intro post
  constructor
  · simp [readServerInfo, consumeResults_stop pre post s hpre hs, hi]
  · simp [consumeResults_stop pre post s hpre hs]

/-- C1 witness: one failure, then a success, then a straggler; the success's
`Info` is returned. -/
theorem readServerInfo_first_success_witness :
    readServerInfo
        [⟨"a1", none, some "refused"⟩,
         ⟨"a2", some ⟨"srv", none, none⟩, none⟩,
         ⟨"a3", none, some "late"⟩] = Except.ok ⟨"srv", none, none⟩ :=
  (readServerInfo_first_success [⟨"a1", none, some "refused"⟩]
      ⟨"a2", some ⟨"srv", none, none⟩, none⟩ ⟨"srv", none, none⟩
      (by decide) rfl rfl [⟨"a3", none, some "late"⟩]).1

/-- C2: when every candidate fails, `readServerInfo` returns an error whose
message has exactly one entry per candidate, each annotated with that
candidate's address: a single line for one candidate, otherwise a bulleted
`- addr: err` list. -/
theorem readServerInfo_all_fail (arrival : List ServerInfoResult)
    (h : ∀ r ∈ arrival, r.err ≠ none) :
    readServerInfo arrival = Except.error ("failed.\n" ++ formatErrs arrival) ∧
    (∀ e, arrival = [e] →
      readServerInfo arrival =
        Except.error ("failed.\nCannot connect to " ++ e.addr ++ ": " ++ e.err.getD "")) ∧
    (2 ≤ arrival.length →
      readServerInfo arrival =
        Except.error ("failed.\nCannot connect to any of the servers we tried:\n" ++
          String.intercalate "\n"
            (arrival.map fun e => "- " ++ e.addr ++ ": " ++ e.err.getD ""))) := by
  have base : readServerInfo arrival = Except.error ("failed.\n" ++ formatErrs arrival) := by
    rw [readServerInfo, consumeResults_all_fail arrival h]
  refine ⟨base, ?_, ?_⟩
  · intro e he
    subst he
    simpa [formatErrs] using base
  · intro hlen
    rcases arrival with _ | ⟨a, _ | ⟨b, rest⟩⟩
    · simp at hlen
    · simp at hlen
    · simpa [formatErrs] using base

/-- C2 witness: two failing candidates produce the bulleted two-entry
aggregate. -/
theorem readServerInfo_all_fail_witness :
    readServerInfo [⟨"a1", none, some "e1"⟩, ⟨"a2", none, some "e2"⟩] =
      Except.error
        "failed.\nCannot connect to any of the servers we tried:\n- a1: e1\n- a2: e2" := by
  have h := (readServerInfo_all_fail
    [⟨"a1", none, some "e1"⟩, ⟨"a2", none, some "e2"⟩] (by decide)).2.2 (by decide)
  simpa using h

/-- Boolean form of `strings.HasPrefix`: `listStarts pre l` is true iff `l`
starts with `pre`. -/
def listStarts : List Char → List Char → Bool
  | [], _ => true
  | _ :: _, [] => false
  | p :: ps, c :: cs => p = c && listStarts ps cs

/-- Behaviour of `bufio.Reader.ReadString('\n')` on the in-memory peeked
bytes: the first line up to and including the first newline when one
exists, `none` (the `err != nil` case) when the peek has no newline. -/
def readLineNl : List Char → Option (List Char)
  | [] => none
  | c :: rest =>
    if c = '\n' then some [c]
    else (readLineNl rest).map (fun l => c :: l)

/-- The literal prefix `pcopy:` checked by extractPath. -/
def pcopyPre : List Char := "pcopy:".toList

/-- Model of `strings.TrimPrefix pre`. -/
def dropPreIf (pre l : List Char) : List Char :=
  if listStarts pre l then l.drop pre.length else l

/-- Model of `strings.TrimSuffix s "\n"`. -/
def dropNlSuf (l : List Char) : List Char :=
  if l.getLast? = some '\n' then l.dropLast else l

/-- Function `extractPath` (tcp_forwarder.go lines 152-159): read the first line; on
read error (no newline) or missing `pcopy:` prefix return `("", 0)`,
otherwise return the line minus the prefix and trailing newline, together
with the length of the whole line as the payload offset. -/
def extractPath (peaked : List Char) : String × Nat :=
  match readLineNl peaked with
  | none => ("", 0)
  | some s =>
    if listStarts pcopyPre s then
      ((dropNlSuf (dropPreIf pcopyPre s)).asString, s.length)
    else ("", 0)

theorem readLineNl_append (lineBody payload : List Char) (h : '\n' ∉ lineBody) :
    readLineNl (lineBody ++ '\n' :: payload) = some (lineBody ++ ['\n']) := by
  induction lineBody with
  | nil => simp [readLineNl]
  | cons c cs ih =>
    have hc : ¬ (c = '\n') := fun hceq => h (List.mem_cons.mpr (Or.inl hceq.symm))
    have hcs : '\n' ∉ cs := fun hm => h (List.mem_cons_of_mem c hm)
    simp [readLineNl, hc, ih hcs]

theorem readLineNl_eq_none (l : List Char) (h : '\n' ∉ l) :
    readLineNl l = none := by
  induction l with
  | nil => rfl
  | cons c cs ih =>
    have hc : ¬ (c = '\n') := fun hceq => h (List.mem_cons.mpr (Or.inl hceq.symm))
    have hcs : '\n' ∉ cs := fun hm => h (List.mem_cons_of_mem c hm)
    simp [readLineNl, hc, ih hcs]

theorem listStarts_nl (p : List Char) (hp : '\n' ∉ p) (l : List Char) :
    listStarts p (l ++ ['\n']) = listStarts p l := by
  induction p generalizing l with
  | nil => simp [listStarts]
  | cons a ps ih =>
    have ha : ¬ (a = '\n') := fun hceq => hp (List.mem_cons.mpr (Or.inl hceq.symm))
    have hps : '\n' ∉ ps := fun hm => hp (List.mem_cons_of_mem a hm)
    cases l with
    | nil => simp [listStarts, ha]
    | cons b ls => simp [listStarts, ih hps]

theorem listStarts_length (p l : List Char) (h : listStarts p l = true) :
    p.length ≤ l.length := by
  induction p generalizing l with
  | nil => simp
  | cons a ps ih =>
    cases l with
    | nil => simp [listStarts] at h
    | cons b ls =>
      simp only [listStarts, Bool.and_eq_true] at h
      simpa using ih ls h.2

/-- C3: when the first line of the peek (terminated by a newline) begins
with `pcopy:`, extractPath returns the rest of that line (newline removed)
and the offset one past the line, so everything after the line is payload;
when the first line lacks the prefix it returns `("", 0)`. -/
theorem extractPath_classify (lineBody payload : List Char) (hnl : '\n' ∉ lineBody) :
    (listStarts pcopyPre lineBody = true →
      extractPath (lineBody ++ '\n' :: payload) =
        ((lineBody.drop 6).asString, lineBody.length + 1) ∧
      (lineBody ++ '\n' :: payload).drop (lineBody.length + 1) = payload) ∧
    (listStarts pcopyPre lineBody = false →
      extractPath (lineBody ++ '\n' :: payload) = ("", 0)) := by
  have hline := readLineNl_append lineBody payload hnl
  have hnp : '\n' ∉ pcopyPre := by decide
  have hstart := listStarts_nl pcopyPre hnp lineBody
  constructor
  · intro hyes
    have hcond : listStarts pcopyPre (lineBody ++ ['\n']) = true := by
      rw [hstart]; exact hyes
    have hlen : 6 ≤ lineBody.length := listStarts_length pcopyPre lineBody hyes
    constructor
    · have hdrop : (lineBody ++ ['\n']).drop 6 = lineBody.drop 6 ++ ['\n'] :=
        List.drop_append_of_le_length hlen
      have hplen : pcopyPre.length = 6 := rfl
      have hpre6 : dropPreIf pcopyPre (lineBody ++ ['\n']) = lineBody.drop 6 ++ ['\n'] := by
        unfold dropPreIf
        rw [if_pos hcond, hplen]
        exact hdrop
      have hsuf : dropNlSuf (lineBody.drop 6 ++ ['\n']) = lineBody.drop 6 := by
        unfold dropNlSuf
        simp
      simp [extractPath, hline, hcond, hpre6, hsuf]
    · have : lineBody ++ '\n' :: payload = (lineBody ++ ['\n']) ++ payload := by simp
      rw [this]
      have hl : (lineBody ++ ['\n']).length = lineBody.length + 1 := by simp
      rw [← hl, List.drop_left]
  · intro hno
    have hcond : listStarts pcopyPre (lineBody ++ ['\n']) = false := by
      rw [hstart]; exact hno
    simp [extractPath, hline, hcond]

/-- C3 witness: the spec's example input, `pcopy:notes.txt` then payload. -/
theorem extractPath_classify_witness :
    extractPath ("pcopy:notes.txt\nPAYLOAD".toList) = ("notes.txt", 16) ∧
      ("pcopy:notes.txt\nPAYLOAD".toList).drop 16 = "PAYLOAD".toList := by
  have h := (extractPath_classify ("pcopy:notes.txt".toList) ("PAYLOAD".toList)
      (by decide)).1 (by decide)
  have heq : "pcopy:notes.txt".toList ++ '\n' :: "PAYLOAD".toList =
      "pcopy:notes.txt\nPAYLOAD".toList := by decide
  rw [heq] at h
  refine ⟨h.1.trans (by decide), ?_⟩
  exact h.2

/-- C9: a peek that begins with `pcopy:` but contains no newline at all is
not treated as a path line: extractPath returns the empty path and offset
zero, leaving the whole content as payload. -/
theorem extractPath_no_newline (peaked : List Char)
    (_hpre : listStarts pcopyPre peaked = true) (hnl : '\n' ∉ peaked) :
    extractPath peaked = ("", 0) := by
  simp [extractPath, readLineNl_eq_none peaked hnl]

/-- C9 witness: `pcopy:abc` with no newline is all payload. -/
theorem extractPath_no_newline_witness :
    extractPath ("pcopy:abc".toList) = ("", 0) :=
  extractPath_no_newline ("pcopy:abc".toList) (by decide) (by decide)

/-- The code points Go's `unicode.IsSpace` accepts (Latin-1 white space
plus the Unicode space separators), as used by `strings.TrimSpace`. -/
def isGoSpace (c : Char) : Bool :=
  [0x9, 0xa, 0xb, 0xc, 0xd, 0x20, 0x85, 0xa0, 0x1680, 0x2000, 0x2001, 0x2002,
    0x2003, 0x2004, 0x2005, 0x2006, 0x2007, 0x2008, 0x2009, 0x200a, 0x2028,
    0x2029, 0x202f, 0x205f, 0x3000].contains c.toNat

/-- Model of `strings.TrimSpace` on the peeked bytes. -/
def trimSpace (l : List Char) : List Char :=
  ((l.dropWhile isGoSpace).reverse.dropWhile isGoSpace).reverse

/-- Outcome of the classification step of handleConn: either the help path
or the forward path with the extracted resource path and payload offset. -/
inductive ConnRoute where
  | helpRoute : ConnRoute
  | forwardRoute : String → Nat → ConnRoute
  deriving Repr, DecidableEq

/-- The classification in handleConn (lines 82-88): a peek whose trimmed
content equals `help` goes to handleHelp; everything else is forwarded as a
PUT whose path and body offset come from extractPath. -/
def classifyConn (peaked : List Char) : ConnRoute :=
  if trimSpace peaked = "help".toList then ConnRoute.helpRoute
  else
    let t := extractPath peaked
    ConnRoute.forwardRoute t.1 t.2

theorem dropWhile_all_append (p : Char → Bool) (l1 l2 : List Char)
    (h : ∀ c ∈ l1, p c = true) :
    List.dropWhile p (l1 ++ l2) = List.dropWhile p l2 := by
  induction l1 with
  | nil => rfl
  | cons a l ih =>
    have ha : p a = true := h a (List.mem_cons_self a l)
    have hl : ∀ c ∈ l, p c = true := fun c hc => h c (List.mem_cons_of_mem a hc)
    simp [List.dropWhile, ha, ih hl]

theorem dropWhile_cons_false (p : Char → Bool) (a : Char) (l : List Char)
    (h : p a = false) : List.dropWhile p (a :: l) = a :: l := by
  simp [List.dropWhile, h]

/-- C4: any peek that is the literal `help` surrounded by (Go) white space
classifies to the help route, never the forward route. -/
theorem classifyConn_help (ws1 ws2 : List Char)
    (h1 : ∀ c ∈ ws1, isGoSpace c = true) (h2 : ∀ c ∈ ws2, isGoSpace c = true) :
    classifyConn (ws1 ++ "help".toList ++ ws2) = ConnRoute.helpRoute := by
  have hl : "help".toList = ['h', 'e', 'l', 'p'] := rfl
  have h2r : ∀ c ∈ ws2.reverse, isGoSpace c = true := fun c hc =>
    h2 c (List.mem_reverse.mp hc)
  have hh : isGoSpace 'h' = false := by decide
  have step1 : List.dropWhile isGoSpace (ws1 ++ ['h', 'e', 'l', 'p'] ++ ws2) =
      ['h', 'e', 'l', 'p'] ++ ws2 := by
    rw [List.append_assoc, dropWhile_all_append isGoSpace ws1 (['h', 'e', 'l', 'p'] ++ ws2) h1]
    exact dropWhile_cons_false isGoSpace 'h' (['e', 'l', 'p'] ++ ws2) hh
  have step2 : List.dropWhile isGoSpace ((['h', 'e', 'l', 'p'] ++ ws2).reverse) =
      ['p', 'l', 'e', 'h'] := by
    rw [List.reverse_append, dropWhile_all_append isGoSpace ws2.reverse
      (['h', 'e', 'l', 'p'].reverse) h2r]
    decide
  have htrim : trimSpace (ws1 ++ ['h', 'e', 'l', 'p'] ++ ws2) = ['h', 'e', 'l', 'p'] := by
    unfold trimSpace
    rw [step1, step2]
    rfl
  rw [hl]
  unfold classifyConn
  simp only [hl, htrim]
  simp

/-- C4 witness: `help` with a trailing newline (as sent by `echo help | nc`)
routes to help. -/
theorem classifyConn_help_witness :
    classifyConn (" help\n".toList) = ConnRoute.helpRoute := by
  have h := classifyConn_help [' '] ['\n'] (by decide) (by decide)
  have heq : [' '] ++ "help".toList ++ ['\n'] = " help\n".toList := by decide
  rw [heq] at h
  exact h

/-- The response phase of handleConn for a forwarded connection (lines
114-129), given the recorded upstream status `code`, its status text, the
result of the request-body copy goroutine read from `errChan`, and the
result of the socket write.  Returns whether `conn.Write(rr.Body.Bytes())`
was invoked at all, paired with handleConn's return value. -/
def forwardRespond (code : Nat) (statusText : String) (copyErr : Option String)
    (writeErr : Option String) : Bool × Except String Unit :=
  if code ≠ 201 ∧ code ≠ 206 then (false, Except.error statusText)
  else
    match copyErr with
    | some e => (false, Except.error e)
    | none =>
      match writeErr with
      | some e => (true, Except.error e)
      | none => (true, Except.ok ())

/-- C5: the captured body is written to the socket iff the upstream status
is 201 or 206 and the body copy finished without error; a bad status
returns the status text as the error with no write, and a copy error
preempts the write. -/
theorem forwardRespond_spec (code : Nat) (statusText : String)
    (copyErr writeErr : Option String) :
    ((forwardRespond code statusText copyErr writeErr).1 = true ↔
      (code = 201 ∨ code = 206) ∧ copyErr = none) ∧
    (code ≠ 201 ∧ code ≠ 206 →
      forwardRespond code statusText copyErr writeErr =
        (false, Except.error statusText)) ∧
    (∀ e, (code = 201 ∨ code = 206) → copyErr = some e →
      forwardRespond code statusText copyErr writeErr =
        (false, Except.error e)) := by
  by_cases h : code ≠ 201 ∧ code ≠ 206
  · unfold forwardRespond
    rw [if_pos h]
    refine ⟨?_, fun _ => rfl, ?_⟩
    · constructor
      · intro hb; simp at hb
      · rintro ⟨h1 | h1, -⟩
        · exact absurd h1 h.1
        · exact absurd h1 h.2
    · rintro e (h1 | h1) _
      · exact absurd h1 h.1
      · exact absurd h1 h.2
  · have hor : code = 201 ∨ code = 206 := by
      by_contra hno
      push_neg at hno
      exact h ⟨hno.1, hno.2⟩
    unfold forwardRespond
    rw [if_neg h]
    cases copyErr with
    | some e =>
      refine ⟨?_, fun hc => absurd hc h, ?_⟩
      · simp
      · intro e' _ he'
        injection he' with he2
        rw [he2]
    | none =>
      cases writeErr with
      | some w =>
        refine ⟨by simp [hor], fun hc => absurd hc h, ?_⟩
        intro e' _ he'
        exact absurd he' (by simp)
      | none =>
        refine ⟨by simp [hor], fun hc => absurd hc h, ?_⟩
        intro e' _ he'
        exact absurd he' (by simp)

/-- C5 witness: upstream status 500 yields the status-text error and no
body write. -/
theorem forwardRespond_spec_witness :
    forwardRespond 500 "500 Internal Server Error" none none =
      (false, Except.error "500 Internal Server Error") :=
  (forwardRespond_spec 500 "500 Internal Server Error" none none).2.1 (by decide)

/-- Go error values as seen by connTimeoutReadCloser: the io.EOF sentinel
or any other error carrying its message. -/
inductive GoErr where
  | eof : GoErr
  | err : String → GoErr
  deriving Repr, DecidableEq

/-- Substring test used to model `strings.Contains`. -/
def listHasSub : List Char → List Char → Bool
  | [], needle => needle.isEmpty
  | c :: rest, needle => listStarts needle (c :: rest) || listHasSub rest needle

/-- One interaction with the underlying net.Conn inside a single Read call:
the outcome of SetReadDeadline and, if that succeeds, of conn.Read. -/
structure ConnStep where
  deadlineErr : Option String
  readN : Nat
  readErr : Option GoErr
  deriving Repr, DecidableEq

/-- connTimeoutReadCloser.Read (lines 167-180) as a state transformer on
the `lastErr` field.  Output: the (bytes, error) pair the call returns, the
new `lastErr`, and whether the underlying connection was touched. -/
def ctrcRead (lastErr : Option GoErr) (step : ConnStep) :
    (Nat × Option GoErr) × Option GoErr × Bool :=
  if lastErr = some GoErr.eof then ((0, some GoErr.eof), lastErr, false)
  else
    match step.deadlineErr with
    | some m => ((0, some (GoErr.err ("cannot set read deadline: " ++ m))), lastErr, true)
    | none =>
      match step.readErr with
      | some (GoErr.err m) =>
        if listHasSub m.toList ("i/o timeout".toList) then
          ((step.readN, some GoErr.eof), some GoErr.eof, true)
        else
          ((step.readN, some (GoErr.err m)), some (GoErr.err m), true)
      | x => ((step.readN, x), x, true)

/-- C6: a read whose underlying error is an i/o timeout returns io.EOF and
records it, and once `lastErr` is io.EOF every later read returns EOF
immediately without arming a deadline or touching the connection. -/
theorem ctrcRead_timeout_eof (lastErr : Option GoErr) (step : ConnStep) (m : String)
    (hle : lastErr ≠ some GoErr.eof) (hd : step.deadlineErr = none)
    (hre : step.readErr = some (GoErr.err m))
    (hm : listHasSub m.toList ("i/o timeout".toList) = true) :
    ctrcRead lastErr step = ((step.readN, some GoErr.eof), some GoErr.eof, true) ∧
    ∀ step2 : ConnStep,
      ctrcRead (some GoErr.eof) step2 = ((0, some GoErr.eof), some GoErr.eof, false) := by
  constructor
  · have hm2 : listHasSub m.data
      ['i', '/', 'o', ' ', 't', 'i', 'm', 'e', 'o', 'u', 't'] = true := hm
    unfold ctrcRead
    rw [if_neg hle, hd, hre]
    simp [hm2]
  · intro step2
    unfold ctrcRead
    rw [if_pos rfl]

/-- C6 witness: a fresh reader whose connection read times out reports EOF
and marks the reader finished. -/
theorem ctrcRead_timeout_eof_witness :
    ctrcRead none ⟨none, 0, some (GoErr.err "read tcp: i/o timeout")⟩ =
      ((0, some GoErr.eof), some GoErr.eof, true) :=
  (ctrcRead_timeout_eof none ⟨none, 0, some (GoErr.err "read tcp: i/o timeout")⟩
    "read tcp: i/o timeout" (by decide) rfl rfl (by decide)).1

/-- Derived or decoded symmetric key (crypto.Key), kept abstract as its
byte content. -/
structure Key where
  bytes : List Nat
  deriving Repr, DecidableEq

/-- The persisted config (config.Config as execJoin constructs it): server
address plus optional key; a nil key means an unauthenticated clipboard. -/
structure Config where
  serverAddr : String
  key : Option Key
  deriving Repr, DecidableEq

/-- The key-resolution and config-construction phase of execJoin (lines
80-107) after a successful readServerInfo.  The collaborators
crypto.DecodeKey, readPassword, crypto.DeriveKey and pclient.Verify are
parameters; `envKey` is `os.Getenv(config.EnvKey)` with the empty string
meaning unset.  The Bool in the result records whether Verify was invoked. -/
def execJoinResolve (info : Info) (envKey : String)
    (decodeKey : String → Except String Key)
    (passwordRes : Except String (List Nat))
    (deriveKey : List Nat → List Nat → Key)
    (verify : Option String → Key → Option String) :
    Except String (Config × Bool) :=
  match info.salt with
  | none => Except.ok ({ serverAddr := info.serverAddr, key := none }, false)
  | some salt =>
    if envKey ≠ "" then
      match decodeKey envKey with
      | Except.error e => Except.error e
      | Except.ok k =>
        Except.ok ({ serverAddr := info.serverAddr, key := some k }, false)
    else
      match passwordRes with
      | Except.error e => Except.error e
      | Except.ok pw =>
        match verify info.cert (deriveKey pw salt) with
        | some e => Except.error ("failed to join clipboard: " ++ e)
        | none =>
          Except.ok
            ({ serverAddr := info.serverAddr, key := some (deriveKey pw salt) }, true)

/-- C7: with a salt present, an externally supplied pre-encoded key is
decoded and used with no Verify call; otherwise the key is derived from
(password, salt) and verified against `info.cert`, and a verification
failure aborts the join with a descriptive error instead of writing the
config. -/
theorem execJoinResolve_key_resolution (info : Info) (salt : List Nat)
    (envKey : String) (decodeKey : String → Except String Key)
    (passwordRes : Except String (List Nat)) (deriveKey : List Nat → List Nat → Key)
    (verify : Option String → Key → Option String) (hsalt : info.salt = some salt) :
    (∀ k, envKey ≠ "" → decodeKey envKey = Except.ok k →
      execJoinResolve info envKey decodeKey passwordRes deriveKey verify =
        Except.ok ({ serverAddr := info.serverAddr, key := some k }, false)) ∧
    (∀ pw e, envKey = "" → passwordRes = Except.ok pw →
      verify info.cert (deriveKey pw salt) = some e →
      execJoinResolve info envKey decodeKey passwordRes deriveKey verify =
        Except.error ("failed to join clipboard: " ++ e)) ∧
    (∀ pw, envKey = "" → passwordRes = Except.ok pw →
      verify info.cert (deriveKey pw salt) = none →
      execJoinResolve info envKey decodeKey passwordRes deriveKey verify =
        Except.ok
          ({ serverAddr := info.serverAddr, key := some (deriveKey pw salt) }, true)) := by
  refine ⟨?_, ?_, ?_⟩
  · intro k he hd
    simp [execJoinResolve, hsalt, he, hd]
  · intro pw e he hp hv
    simp [execJoinResolve, hsalt, he, hp, hv]
  · intro pw he hp hv
    simp [execJoinResolve, hsalt, he, hp, hv]

/-- C7 witness: env-supplied key on a salted server is used directly with
no Verify call. -/
theorem execJoinResolve_key_resolution_witness :
    execJoinResolve ⟨"srv", some [7], none⟩ "ENC" (fun _ => Except.ok ⟨[1]⟩)
      (Except.error "no prompt") (fun _ _ => ⟨[0]⟩) (fun _ _ => none) =
      Except.ok ({ serverAddr := "srv", key := some ⟨[1]⟩ }, false) :=
  (execJoinResolve_key_resolution ⟨"srv", some [7], none⟩ [7] "ENC"
    (fun _ => Except.ok ⟨[1]⟩) (Except.error "no prompt") (fun _ _ => ⟨[0]⟩)
    (fun _ _ => none) rfl).1 ⟨[1]⟩ (by decide) rfl

/-- C8: every successfully written config carries the discovered server
address, and carries a key iff the server sent a salt. -/
theorem execJoinResolve_config_invariant (info : Info) (envKey : String)
    (decodeKey : String → Except String Key) (passwordRes : Except String (List Nat))
    (deriveKey : List Nat → List Nat → Key) (verify : Option String → Key → Option String)
    (conf : Config) (vc : Bool)
    (h : execJoinResolve info envKey decodeKey passwordRes deriveKey verify =
      Except.ok (conf, vc)) :
    conf.serverAddr = info.serverAddr ∧ (conf.key.isSome ↔ info.salt.isSome) := by
  unfold execJoinResolve at h
  split at h
  · simp only [Except.ok.injEq, Prod.mk.injEq] at h
    obtain ⟨h1, -⟩ := h
    subst h1
    simp_all
  · split at h
    · split at h
      · exact Except.noConfusion h
      · simp only [Except.ok.injEq, Prod.mk.injEq] at h
        obtain ⟨h1, -⟩ := h
        subst h1
        simp_all
    · split at h
      · exact Except.noConfusion h
      · split at h
        · exact Except.noConfusion h
        · simp only [Except.ok.injEq, Prod.mk.injEq] at h
          obtain ⟨h1, -⟩ := h
          subst h1
          simp_all

/-- C8 witness: a salted server yields a config with the server address and
a present key. -/
theorem execJoinResolve_config_invariant_witness :
    (({ serverAddr := "srv", key := some ⟨[1]⟩ } : Config).serverAddr =
        (⟨"srv", some [7], none⟩ : Info).serverAddr) ∧
      ((({ serverAddr := "srv", key := some ⟨[1]⟩ } : Config).key.isSome) ↔
        ((⟨"srv", some [7], none⟩ : Info).salt.isSome)) :=
  execJoinResolve_config_invariant ⟨"srv", some [7], none⟩ "ENC"
    (fun _ => Except.ok ⟨[1]⟩) (Except.error "no prompt") (fun _ _ => ⟨[0]⟩)
    (fun _ _ => none) { serverAddr := "srv", key := some ⟨[1]⟩ } false rfl

/-- The tcpForwarder state relevant to shutdown: the `cancel` field is the
Go `context.CancelFunc`, nil (`none`) until listenAndServe stores one. -/
structure TCPForwarder where
  cancel : Option Unit
  deriving Repr, DecidableEq

/-- Constructor `newTCPForwarder` leaves the `cancel` field nil. -/
def newTCPForwarder : TCPForwarder := { cancel := none }

/-- listenAndServe up to its blocking wait (lines 43-69): a failed
net.Listen returns the bind error before any cancel function exists;
otherwise the accept loop is started and `s.cancel = cancel` is stored,
after which the method blocks on `<-ctx.Done()`. -/
def listenInstall (s : TCPForwarder) (bindErr : Option String) :
    Except String TCPForwarder :=
  match bindErr with
  | some e => Except.error e
  | none => Except.ok { s with cancel := some () }

/-- Effect of `s.cancel()` inside shutdown (lines 73-75): invoking a nil
context.CancelFunc is a nil-function call (runtime panic); a stored one
fires the context's cancellation. -/
inductive ShutdownOutcome where
  | nilPanic : ShutdownOutcome
  | fired : ShutdownOutcome
  deriving Repr, DecidableEq

def shutdownCall (s : TCPForwarder) : ShutdownOutcome :=
  match s.cancel with
  | none => ShutdownOutcome.nilPanic
  | some _ => ShutdownOutcome.fired

/-- The `<-ctx.Done(); return nil` tail of listenAndServe: it completes only
once the cancellation has fired, and then listenAndServe returns nil
(`some none`); with no firing it stays blocked (`none`). -/
def listenWaitResult (o : ShutdownOutcome) : Option (Option String) :=
  match o with
  | ShutdownOutcome.fired => some none
  | ShutdownOutcome.nilPanic => none

/-- C10: shutdown before listenAndServe hits the nil cancel function, while
after a successful listenAndServe installation it fires the cancellation,
unblocking listenAndServe which returns nil. -/
theorem shutdown_lifecycle :
    shutdownCall newTCPForwarder = ShutdownOutcome.nilPanic ∧
    ∀ s s' : TCPForwarder, listenInstall s none = Except.ok s' →
      shutdownCall s' = ShutdownOutcome.fired ∧
      listenWaitResult (shutdownCall s') = some none := by
  refine ⟨rfl, ?_⟩
  intro s s' h
  simp only [listenInstall, Except.ok.injEq] at h
  rw [← h]
  exact ⟨rfl, rfl⟩

/-- C10 witness: installing the cancel function and then shutting down
fires the cancellation and lets listenAndServe return nil. -/
theorem shutdown_lifecycle_witness :
    shutdownCall { cancel := some () } = ShutdownOutcome.fired ∧
      listenWaitResult (shutdownCall { cancel := some () }) = some none :=
  shutdown_lifecycle.2 newTCPForwarder { cancel := some () } rfl

end Pcopy
